import Mathlib

/-!
Verification development for `cmd/get_repos/get_repos.go` of the devstats
repository.  The Go program discovers repositories per database shard, syncs
each repository (clone or reset+pull) through a bounded worker pool, scans
shards for unprocessed commits through a second pool of the same shape, and
reports aggregated results.

The embedding below translates the program's pure decision logic into Lean:
external effects (filesystem stat, `git` subprocesses, SQL queries) become
explicit environment parameters, fatal `lib.FatalOnError` aborts become
`Except.error`, the Go slice-bounds panic becomes `Option.none`, and the
channel-based worker pool becomes a state machine over the FIFO list of
in-flight result channels.
-/

deriving instance DecidableEq for Except

/- ### Go string primitives used by the program -/

/-- Splitting a character list on a separator character, the semantics of Go
`strings.Split` with a one-character separator: `Split("", sep)` is `[""]`,
and adjacent/leading/trailing separators produce empty fields. -/
def splitChars (sep : Char) : List Char → List (List Char)
  | [] => [[]]
  | c :: cs =>
    if c = sep then [] :: splitChars sep cs
    else
      match splitChars sep cs with
      | [] => [[c]]
      | p :: ps => (c :: p) :: ps

/-- Go `strings.Split(s, sep)` for a one-character separator. -/
def goSplit (s : String) (sep : Char) : List String :=
  (splitChars sep s.data).map (fun cs => String.mk cs)

/-- Lexicographic order on character lists; for valid UTF-8 this coincides
with the byte-wise comparison Go `sort.Strings` uses. -/
def leChars : List Char → List Char → Bool
  | [], _ => true
  | _ :: _, [] => false
  | a :: as, b :: bs => if a = b then leChars as bs else decide (a < b)

/-- The string order of Go `sort.Strings` (ascending lexicographic). -/
def goStrLe (a b : String) : Prop := leChars a.data b.data = true

instance : DecidableRel goStrLe :=
  fun a b => inferInstanceAs (Decidable (leChars a.data b.data = true))

/-- Go `sort.Strings`: sort a string slice ascending lexicographically. -/
def goSortStrings (l : List String) : List String := l.insertionSort goStrLe

/- ### dirExists -/

/-- Outcome of `os.Stat` on a path: the path does not exist, `Stat` failed
with some other error, or it exists as a directory or as a non-directory. -/
inductive StatResult where
  | notExist
  | statError (e : String)
  | statDir
  | statFile
deriving DecidableEq

/-- Embedding of `dirExists(path string) (bool, error)` over an abstract
filesystem `stat`.  `none` models the Go panic: on the empty string the
expression `path[len(path)-1:]` indexes out of bounds before anything else
runs.  Otherwise the trailing `"/"` is stripped and `os.Stat` consulted;
`Except.error` models a non-nil returned error. -/
def dirExists (stat : String → StatResult) (path : String) :
    Option (Except String Bool) :=
  match path.data.getLast? with
  | none => none
  | some c =>
    let path := if c = '/' then String.mk path.data.dropLast else path
    some (match stat path with
      | .notExist => .ok false
      | .statError e => .error e
      | .statDir => .ok true
      | .statFile => .error (path ++ ": exists, but is not a directory"))

/- ### processRepo (sync unit) -/

/-- Which branch of `processRepo` ran: `git clone` or `git_reset_pull.sh`. -/
inductive SyncStep where
  | cloneStep
  | pullStep
deriving DecidableEq

/-- Observable result of one non-fatal `processRepo` run: the branch taken
and the values sent on the unit's result channel, in order. -/
structure SyncOutcome where
  step : SyncStep
  sends : List String
deriving DecidableEq

/-- Environment of one sync unit: the filesystem, and whether the external
`git clone` / `git_reset_pull.sh` invocation for a given working directory
returns a non-nil error. -/
structure SyncEnv where
  stat : String → StatResult
  cloneFails : String → Bool
  pullFails : String → Bool

/-- Embedding of `processRepo(ch, ctx, orgRepo, rwd)`.  `none` is the panic
inherited from `dirExists` on an empty path; `Except.error` is the
`lib.FatalOnError` abort on a `dirExists` error; otherwise the unit clones
when the directory is absent and reset+pulls when present, sending `orgRepo`
on success and `""` on failure of the external command. -/
def processRepo (env : SyncEnv) (orgRepo rwd : String) :
    Option (Except String SyncOutcome) :=
  match dirExists env.stat rwd with
  | none => none
  | some (.error e) => some (.error e)
  | some (.ok existsDir) =>
    if !existsDir then
      if env.cloneFails rwd then some (.ok ⟨.cloneStep, [""]⟩)
      else some (.ok ⟨.cloneStep, [orgRepo]⟩)
    else
      if env.pullFails rwd then some (.ok ⟨.pullStep, [""]⟩)
      else some (.ok ⟨.pullStep, [orgRepo]⟩)

/-- Whether the external command of the branch `processRepo` took fails. -/
def opFails (env : SyncEnv) (rwd : String) : SyncStep → Bool
  | .cloneStep => env.cloneFails rwd
  | .pullStep => env.pullFails rwd

/- ### getRepos (index builder) -/

/-- One entry of `projects.yaml`: its disabled flag and its database name. -/
structure Project where
  disabled : Bool
  pdb : String

/-- The `dbs` map of `getRepos` as a duplicate-free list of keys: every
enabled project's database is inserted once. -/
def computeDbs (projects : List Project) : List String :=
  projects.foldl
    (fun dbs p =>
      if p.disabled then dbs
      else if dbs.contains p.pdb then dbs else dbs ++ [p.pdb]) []

/-- The organization component the index builder files a repository under:
the first field of the `/`-split (`ary[0]` in the source). -/
def orgOf (repo : String) : String := (goSplit repo '/').headD ""

/-- Appending `repo` to `allRepos[org]`, with the absent key defaulting to
the empty list as in the source's `_, ok := allRepos[org]` dance. -/
def addRepo (m : String → List String) (org repo : String) :
    String → List String :=
  fun o => if o = org then m org ++ [repo] else m o

/-- The per-database loop of `getRepos`: split each identifier on `/`;
a split yielding other than two fields is `lib.FatalOnError`-fatal;
otherwise the identifier is appended to its organization's list. -/
def processDbRepos :
    List String → (String → List String) → Except String (String → List String)
  | [], m => .ok m
  | repo :: rest, m =>
    if (goSplit repo '/').length ≠ 2 then
      .error ("invalid repo name: " ++ repo)
    else processDbRepos rest (addRepo m ((goSplit repo '/').headD "") repo)

/-- The outer loop of `getRepos` over the distinct databases, threading the
organization map and propagating the first fatal error. -/
def buildAllRepos (dbRepos : String → List String) :
    List String → (String → List String) → Except String (String → List String)
  | [], m => .ok m
  | db :: rest, m =>
    match processDbRepos (dbRepos db) m with
    | .error e => .error e
    | .ok m2 => buildAllRepos dbRepos rest m2

/-- Embedding of `getRepos(ctx)`: from the project manifest and the
per-database query results (`select distinct name from gha_repos where name
like given pattern`), return the distinct database set and the
organization→repositories map, or abort fatally. -/
def getRepos (projects : List Project) (dbRepos : String → List String) :
    Except String (List String × (String → List String)) :=
  match buildAllRepos dbRepos (computeDbs projects) (fun _ => []) with
  | .error e => .error e
  | .ok m => .ok (computeDbs projects, m)

/-- Whether an `Except`-modelled computation aborted the run fatally. -/
def isFatal {α : Type} : Except String α → Bool
  | .error _ => true
  | .ok _ => false

/- ### Bounded worker pool (shape shared by processRepos and processCommits) -/

/-- State of the dispatch loop: the FIFO list of in-flight result channels
(each carrying the value its goroutine will deliver), the collected
successes (`allOkRepos`), the dispatch count (`checked`), and the maximum
number of channels ever simultaneously in flight. -/
structure Pool (α : Type) where
  chanPool : List α
  okResults : List α
  checked : Nat
  peak : Nat
deriving DecidableEq

/-- Receive from the oldest in-flight channel (`chanPool[0]`), keeping the
result when the instantiated filter accepts it (`res != ""` in
`processRepos`; results are discarded in `processCommits`). -/
def recvOldest {α : Type} (keep : α → Bool) (s : Pool α) : Pool α :=
  match s.chanPool with
  | [] => s
  | res :: rest =>
    { s with chanPool := rest,
             okResults := if keep res then s.okResults ++ [res] else s.okResults }

/-- Spawn one unit: append its result channel to the window, bump the
dispatch count, and record the new in-flight high-water mark. -/
def pushChan {α : Type} (s : Pool α) (res : α) : Pool α :=
  { s with chanPool := s.chanPool ++ [res],
           checked := s.checked + 1,
           peak := max s.peak (s.chanPool.length + 1) }

/-- Dispatch one work item: spawn its goroutine, then, when the window has
reached `thrN`, block on the oldest channel and evict it. -/
def spawnUnit {α : Type} (keep : α → Bool) (thrN : Nat) (s : Pool α) (res : α) :
    Pool α :=
  if (pushChan s res).chanPool.length = thrN then recvOldest keep (pushChan s res)
  else pushChan s res

/-- The final drain loop: receive from every remaining channel in order. -/
def drainPool {α : Type} (keep : α → Bool) : Nat → Pool α → Pool α
  | 0, s => s
  | n + 1, s => drainPool keep n (recvOldest keep s)

/-- Run the whole pool over the ordered work items (each annotated with the
result its unit will report): dispatch all items, then drain the window. -/
def runPool {α : Type} (keep : α → Bool) (thrN : Nat) (results : List α) :
    Pool α :=
  let s := results.foldl (spawnUnit keep thrN) ⟨[], [], 0, 0⟩
  drainPool keep s.chanPool.length s

/-- The repo-sync pool of `processRepos`: collects non-empty results. -/
def processReposPool (thrN : Nat) (results : List String) : Pool String :=
  runPool (fun res => res != "") thrN results

/-- The shard-scan pool of `processCommits`: results are booleans received
and discarded. -/
def processCommitsPool (thrN : Nat) (results : List Bool) : Pool Bool :=
  runPool (fun _ => false) thrN results

/- ### processCommitsDB (shard scanner) -/

/-- Result set of the unprocessed-commits query on one shard: each row's
`Scan` outcome (a `(sha, repo)` pair or an error), and the final
`rows.Err()` value. -/
structure QueryRows where
  rows : List (Except String (String × String))
  finalErr : Option String

/-- The row loop of `processCommitsDB`: each scanned `(sha, repo)` row is
appended as `(repo, sha)`; the first scan error is fatal. -/
def scanRows :
    List (Except String (String × String)) → List (String × String) →
    Except String (List (String × String))
  | [], shas => .ok shas
  | row :: rest, shas =>
    match row with
    | .error e => .error e
    | .ok (sha, repo) => scanRows rest (shas ++ [(repo, sha)])

/-- Embedding of `processCommitsDB` for one shard: a query error, any row
scan error, or a final `rows.Err()` is fatal (`lib.FatalOnError`); otherwise
the ordered `(repo, sha)` work-item list is produced. -/
def processCommitsDB (q : Except String QueryRows) :
    Except String (List (String × String)) :=
  match q with
  | .error e => .error e
  | .ok qr =>
    match scanRows qr.rows [] with
    | .error e => .error e
    | .ok shas =>
      match qr.finalErr with
      | some e => .error e
      | none => .ok shas

/- ### Result aggregation and reporting (tail of processRepos) -/

/-- What the reporting tail of `processRepos` writes where: lines printed to
standard output via `fmt.Printf`, and lines written to the structured log
via `lib.Printf`. -/
structure Report where
  stdoutLines : List String
  logLines : List String

/-- The Ruby-like array literal built over the (sorted) successful repos. -/
def allOkReposStr (okRepos : List String) : String :=
  (okRepos.foldl (fun acc okRepo => acc ++ "  '" ++ okRepo ++ "',\n") "[\n") ++ "]"

/-- The `./all_repos_log.sh` command line over the (sorted) organizations,
each contributing its on-disk glob `reposDir ++ org ++ "/* "`. -/
def finalCmdStr (reposDir : String) (orgs : List String) : String :=
  orgs.foldl (fun acc org => acc ++ reposDir ++ org ++ "/* ") "./all_repos_log.sh "

/-- The unconditional one-line summary logged by `processRepos`. -/
def summaryLine (okCount checked : Nat) : String :=
  "Sucesfully processed " ++ toString okCount ++ "/" ++ toString checked ++ " repos\n"

/-- Embedding of the reporting tail of `processRepos`: when the
`GHA2DB_EXTERNAL_INFO` flag is set, sort the successful repos and the
organization names and print the array literal and the shell command to
standard output only; in every case log the summary line. -/
def reportRepos (externalInfo : Bool) (reposDir : String)
    (allOkRepos : List String) (orgs : List String) (checked : Nat) : Report :=
  let stdoutLines :=
    if externalInfo then
      ["AllRepos:\n" ++ allOkReposStr (goSortStrings allOkRepos) ++ "\n",
       "Final command:\n" ++ finalCmdStr reposDir (goSortStrings orgs) ++ "\n"]
    else []
  { stdoutLines := stdoutLines,
    logLines := [summaryLine allOkRepos.length checked] }

/- ### Repository working directory (dispatch loop of processRepos) -/

/-- The working directory `processRepos` hands a sync unit: `owd` is
`ReposDir ++ org` and `rwd` is `owd ++ "/" ++ ary[1]` where `ary` is the
`/`-split of the identifier. -/
def repoWorkingDir (reposDir org orgRepo : String) : String :=
  let owd := reposDir ++ org
  let repo := (goSplit orgRepo '/').getD 1 ""
  owd ++ "/" ++ repo

/-- Modelled from the spec: `Ctx.ReposDir` is initialized by `Ctx.Init`,
which is not among the sources here; the spec states that a repository
`organization/name` maps 1:1 to the local path `<root>/<organization>/<name>`
under the configured root directory, so the configured directory value is
the root followed by the path separator. -/
def configuredReposDir (root : String) : String := root ++ "/"

/- ### Helper lemmas -/

lemma string_ne_empty_data {path : String} (hne : path ≠ "") : path.data ≠ [] := by
  intro h
  apply hne
  cases path with
  | mk data => cases h; rfl

lemma processDbRepos_fatal_iff (repos : List String) (m : String → List String) :
    isFatal (processDbRepos repos m) = true ↔
      ∃ r ∈ repos, (goSplit r '/').length ≠ 2 := by
  induction repos generalizing m with
  | nil => simp [processDbRepos, isFatal]
  | cons repo rest ih =>
    by_cases h : (goSplit repo '/').length ≠ 2
    · simp [processDbRepos, h, isFatal]
    · simp only [processDbRepos, if_neg h]
      rw [ih]
      simp only [List.mem_cons]
      constructor
      · rintro ⟨r, hr, hlen⟩
        exact ⟨r, Or.inr hr, hlen⟩
      · rintro ⟨r, hr | hr, hlen⟩
        · exact absurd (hr ▸ hlen) h
        · exact ⟨r, hr, hlen⟩

lemma buildAllRepos_fatal_iff (dbRepos : String → List String)
    (dbs : List String) (m : String → List String) :
    isFatal (buildAllRepos dbRepos dbs m) = true ↔
      ∃ db ∈ dbs, ∃ r ∈ dbRepos db, (goSplit r '/').length ≠ 2 := by
  induction dbs generalizing m with
  | nil => simp [buildAllRepos, isFatal]
  | cons db rest ih =>
    cases hdb : processDbRepos (dbRepos db) m with
    | error e =>
      have hex : ∃ r ∈ dbRepos db, (goSplit r '/').length ≠ 2 :=
        (processDbRepos_fatal_iff (dbRepos db) m).1 (by simp [isFatal, hdb])
      simp only [buildAllRepos, hdb, isFatal, List.mem_cons]
      constructor
      · intro _; exact ⟨db, Or.inl rfl, hex⟩
      · intro _; trivial
    | ok m2 =>
      have hnone : ¬ ∃ r ∈ dbRepos db, (goSplit r '/').length ≠ 2 := by
        intro hex
        have := (processDbRepos_fatal_iff (dbRepos db) m).2 hex
        simp [hdb, isFatal] at this
      simp only [buildAllRepos, hdb]
      rw [ih]
      simp only [List.mem_cons]
      constructor
      · rintro ⟨d, hd, hr⟩
        exact ⟨d, Or.inr hd, hr⟩
      · rintro ⟨d, hd | hd, hr⟩
        · exact absurd (hd ▸ hr) hnone
        · exact ⟨d, hd, hr⟩

/- ### C10 -/

/-- C10: the directory-existence check is total on every non-empty path
(it returns an exists/absent/error answer), but called on the empty string
the slice expression `path[len(path)-1:]` indexes out of bounds, so the
call panics instead of returning an error. -/
theorem dirExists_requires_nonempty_path (stat : String → StatResult) :
    (∀ path : String, path ≠ "" → (dirExists stat path).isSome = true) ∧
    dirExists stat "" = none := by
  constructor
  · intro path hne
    have hdata : path.data ≠ [] := string_ne_empty_data hne
    have hsome : path.data.getLast?.isSome := by
      rw [List.getLast?_isSome]
      exact hdata
    obtain ⟨c, hc⟩ := Option.isSome_iff_exists.1 hsome
    simp [dirExists, hc]
  · rfl

/-- C10 witness: a concrete filesystem, a one-letter path, and the empty
path. -/
theorem dirExists_requires_nonempty_path_witness :
    (("a" : String) ≠ "" ∧
      (dirExists (fun _ => StatResult.notExist) "a").isSome = true) ∧
    dirExists (fun _ => StatResult.notExist) "" = none :=
  ⟨⟨by decide, (dirExists_requires_nonempty_path (fun _ => StatResult.notExist)).1 "a" (by decide)⟩,
   (dirExists_requires_nonempty_path (fun _ => StatResult.notExist)).2⟩

/- ### C9 -/

/-- C9: for a two-part identifier `org/name`, the sync unit's working
directory under the configured root is the local path
`<root>/<organization>/<name>`. -/
theorem repoWorkingDir_is_root_org_name (root org repoName orgRepo : String)
    (h : goSplit orgRepo '/' = [org, repoName]) :
    repoWorkingDir (configuredReposDir root) org orgRepo =
      root ++ "/" ++ org ++ "/" ++ repoName := by
  simp [repoWorkingDir, configuredReposDir, h]

/-- C9 witness at the identifier of the spec's end-to-end scenario. -/
theorem repoWorkingDir_is_root_org_name_witness :
    goSplit "org1/repoX" '/' = ["org1", "repoX"] ∧
    repoWorkingDir (configuredReposDir "/repos") "org1" "org1/repoX" =
      "/repos" ++ "/" ++ "org1" ++ "/" ++ "repoX" :=
  ⟨by decide,
   repoWorkingDir_is_root_org_name "/repos" "org1" "repoX" "org1/repoX" (by decide)⟩

/- ### C2 -/

/-- C2 counterexample: the identifier made of the separator followed by one
letter splits into exactly two parts whose first part is empty — so the
split does not yield two non-empty parts — yet the index builder accepts it
and does not abort. -/
theorem indexBuilder_accepts_empty_org_part :
    (goSplit "/x" '/').length = 2 ∧ (goSplit "/x" '/').headD "" = "" ∧
    isFatal (processDbRepos ["/x"] (fun _ => [])) = false ∧
    isFatal (getRepos [Project.mk false "A"] (fun _ => ["/x"])) = false := by
  refine ⟨by decide, by decide, rfl, rfl⟩

/-- C2 (amended): the index builder aborts the whole run with a fatal error
exactly when some enabled shard's result set contains an identifier whose
split on the separator does not yield exactly two parts; emptiness of the
parts is not checked, and a malformed identifier is never skipped — its
presence always aborts the run. -/
theorem getRepos_fatal_iff_malformed (projects : List Project)
    (dbRepos : String → List String) :
    isFatal (getRepos projects dbRepos) = true ↔
      ∃ db ∈ computeDbs projects, ∃ r ∈ dbRepos db,
        (goSplit r '/').length ≠ 2 := by
  unfold getRepos
  rw [← buildAllRepos_fatal_iff dbRepos (computeDbs projects) (fun _ => [])]
  cases h : buildAllRepos dbRepos (computeDbs projects) (fun _ => []) with
  | error e => simp [isFatal]
  | ok m => simp [isFatal]

/- ### C5 -/

/-- C5: the target path's state determines the sync unit's transition — an
absent path takes the clone branch, an existing directory takes the
reset+pull branch, and an existing non-directory aborts the run fatally.
The path is assumed non-empty and without a trailing separator, as the
dispatch loop always passes `owd ++ "/" ++ repo`. -/
theorem processRepo_state_transitions (env : SyncEnv) (orgRepo rwd : String)
    (c : Char) (hc : rwd.data.getLast? = some c) (hslash : c ≠ '/') :
    (env.stat rwd = .notExist →
      processRepo env orgRepo rwd =
        some (.ok ⟨.cloneStep, [if env.cloneFails rwd then "" else orgRepo]⟩)) ∧
    (env.stat rwd = .statDir →
      processRepo env orgRepo rwd =
        some (.ok ⟨.pullStep, [if env.pullFails rwd then "" else orgRepo]⟩)) ∧
    (env.stat rwd = .statFile →
      processRepo env orgRepo rwd =
        some (.error (rwd ++ ": exists, but is not a directory"))) := by
  refine ⟨fun hstat => ?_, fun hstat => ?_, fun hstat => ?_⟩
  · simp only [processRepo, dirExists, hc, if_neg hslash, hstat]
    by_cases hcf : env.cloneFails rwd <;> simp [hcf]
  · simp only [processRepo, dirExists, hc, if_neg hslash, hstat]
    by_cases hpf : env.pullFails rwd <;> simp [hpf]
  · simp [processRepo, dirExists, hc, if_neg hslash, hstat]

/-- C5 witness: a fresh filesystem where the target is absent and the clone
succeeds. -/
theorem processRepo_state_transitions_witness :
    (("/root/org1/repoX" : String).data.getLast? = some 'X' ∧ 'X' ≠ '/') ∧
    ((SyncEnv.mk (fun _ => .notExist) (fun _ => false) (fun _ => false)).stat
        "/root/org1/repoX" = .notExist →
      processRepo (SyncEnv.mk (fun _ => .notExist) (fun _ => false) (fun _ => false))
          "org1/repoX" "/root/org1/repoX" =
        some (.ok ⟨.cloneStep,
          [if (SyncEnv.mk (fun _ => .notExist) (fun _ => false) (fun _ => false)).cloneFails
              "/root/org1/repoX" then "" else "org1/repoX"]⟩)) :=
  ⟨⟨by decide, by decide⟩,
   (processRepo_state_transitions
      (SyncEnv.mk (fun _ => .notExist) (fun _ => false) (fun _ => false))
      "org1/repoX" "/root/org1/repoX" 'X' (by decide) (by decide)).1⟩

/- ### C6 -/

/-- C6: every non-fatal, non-panicking run of the sync unit sends exactly
one value on its dedicated result channel — the canonical identifier when
the clone or refresh succeeded, and the empty string when it failed. -/
theorem processRepo_sends_exactly_one (env : SyncEnv) (orgRepo rwd : String)
    (r : SyncOutcome) (h : processRepo env orgRepo rwd = some (.ok r)) :
    r.sends.length = 1 ∧
    r.sends = [if opFails env rwd r.step then "" else orgRepo] := by
  cases hde : dirExists env.stat rwd with
  | none => simp [processRepo, hde] at h
  | some res =>
    cases res with
    | error e => simp [processRepo, hde] at h
    | ok b =>
      cases b with
      | false =>
        by_cases hcf : env.cloneFails rwd <;>
          simp [processRepo, hde, hcf] at h <;>
          · subst h; simp [opFails, hcf]
      | true =>
        by_cases hpf : env.pullFails rwd <;>
          simp [processRepo, hde, hpf] at h <;>
          · subst h; simp [opFails, hpf]

/-- C6 witness: a failing clone sends exactly the empty string. -/
theorem processRepo_sends_exactly_one_witness :
    processRepo (SyncEnv.mk (fun _ => .notExist) (fun _ => true) (fun _ => false))
        "org1/repoY" "/root/org1/repoY" =
      some (.ok ⟨.cloneStep, [""]⟩) ∧
    ((⟨.cloneStep, [""]⟩ : SyncOutcome).sends.length = 1 ∧
      (⟨.cloneStep, [""]⟩ : SyncOutcome).sends =
        [if opFails (SyncEnv.mk (fun _ => .notExist) (fun _ => true) (fun _ => false))
            "/root/org1/repoY" (⟨.cloneStep, [""]⟩ : SyncOutcome).step
          then "" else "org1/repoY"]) :=
  ⟨by decide,
   processRepo_sends_exactly_one
     (SyncEnv.mk (fun _ => .notExist) (fun _ => true) (fun _ => false))
     "org1/repoY" "/root/org1/repoY" ⟨.cloneStep, [""]⟩ (by decide)⟩

/- ### C4 -/

lemma scanRows_fatal_of_mem {rows : List (Except String (String × String))}
    (e : String) (hmem : Except.error e ∈ rows) :
    ∀ shas, isFatal (scanRows rows shas) = true := by
  induction rows with
  | nil => cases hmem
  | cons row rest ih =>
    intro shas
    cases hmem with
    | head => simp [scanRows, isFatal]
    | tail _ hmem2 =>
      cases row with
      | error e2 => simp [scanRows, isFatal]
      | ok p =>
        cases p with
        | mk sha repo => simpa [scanRows] using ih hmem2 (shas ++ [(repo, sha)])

/-- C4: the asymmetric error policy — in the shard scanner a query failure
or any row-scan failure is fatal to the whole run, while in the sync unit a
VCS failure (clone or reset+pull) is a non-fatal per-unit outcome whenever
the directory check itself returned an answer. -/
theorem shard_fatal_vs_sync_nonfatal :
    (∀ e : String, isFatal (processCommitsDB (Except.error e)) = true) ∧
    (∀ (qr : QueryRows) (e : String), Except.error e ∈ qr.rows →
      isFatal (processCommitsDB (Except.ok qr)) = true) ∧
    (∀ (env : SyncEnv) (orgRepo rwd : String) (b : Bool),
      dirExists env.stat rwd = some (Except.ok b) →
      ∃ r : SyncOutcome, processRepo env orgRepo rwd = some (Except.ok r)) := by
  refine ⟨fun e => rfl, fun qr e hmem => ?_, fun env orgRepo rwd b hde => ?_⟩
  · have hscan := scanRows_fatal_of_mem e hmem []
    cases hs : scanRows qr.rows [] with
    | error e2 => simp [processCommitsDB, hs, isFatal]
    | ok shas => rw [hs] at hscan; simp [isFatal] at hscan
  · cases b with
    | false =>
      by_cases hcf : env.cloneFails rwd
      · exact ⟨⟨.cloneStep, [""]⟩, by simp [processRepo, hde, hcf]⟩
      · exact ⟨⟨.cloneStep, [orgRepo]⟩, by simp [processRepo, hde, hcf]⟩
    | true =>
      by_cases hpf : env.pullFails rwd
      · exact ⟨⟨.pullStep, [""]⟩, by simp [processRepo, hde, hpf]⟩
      · exact ⟨⟨.pullStep, [orgRepo]⟩, by simp [processRepo, hde, hpf]⟩

/-- C4 witness: a concrete failed query, a concrete failed row scan, and a
concrete failed clone that stays non-fatal. -/
theorem shard_fatal_vs_sync_nonfatal_witness :
    isFatal (processCommitsDB (Except.error "query failed")) = true ∧
    (Except.error "scan failed" ∈
        (QueryRows.mk [Except.ok ("sha1", "org1/repoX"), Except.error "scan failed"]
          none).rows ∧
      isFatal (processCommitsDB (Except.ok
        (QueryRows.mk [Except.ok ("sha1", "org1/repoX"), Except.error "scan failed"]
          none))) = true) ∧
    (dirExists (SyncEnv.mk (fun _ => .notExist) (fun _ => true) (fun _ => false)).stat
        "/root/org1/repoY" = some (Except.ok false) ∧
      ∃ r : SyncOutcome,
        processRepo (SyncEnv.mk (fun _ => .notExist) (fun _ => true) (fun _ => false))
          "org1/repoY" "/root/org1/repoY" = some (Except.ok r)) :=
  ⟨shard_fatal_vs_sync_nonfatal.1 "query failed",
   ⟨by simp,
    shard_fatal_vs_sync_nonfatal.2.1
      (QueryRows.mk [Except.ok ("sha1", "org1/repoX"), Except.error "scan failed"] none)
      "scan failed" (by simp)⟩,
   ⟨by decide,
    shard_fatal_vs_sync_nonfatal.2.2
      (SyncEnv.mk (fun _ => .notExist) (fun _ => true) (fun _ => false))
      "org1/repoY" "/root/org1/repoY" false (by decide)⟩⟩

/- ### Worker pool lemmas -/

lemma recvOldest_checked {α : Type} (keep : α → Bool) (s : Pool α) :
    (recvOldest keep s).checked = s.checked := by
  cases h : s.chanPool <;> simp [recvOldest, h]

lemma recvOldest_peak {α : Type} (keep : α → Bool) (s : Pool α) :
    (recvOldest keep s).peak = s.peak := by
  cases h : s.chanPool <;> simp [recvOldest, h]

lemma recvOldest_length {α : Type} (keep : α → Bool) (s : Pool α)
    (h : s.chanPool ≠ []) :
    (recvOldest keep s).chanPool.length = s.chanPool.length - 1 := by
  cases hc : s.chanPool with
  | nil => exact absurd hc h
  | cons res rest => simp [recvOldest, hc]

lemma spawnUnit_checked {α : Type} (keep : α → Bool) (thrN : Nat) (s : Pool α)
    (r : α) : (spawnUnit keep thrN s r).checked = s.checked + 1 := by
  unfold spawnUnit
  split <;> simp [recvOldest_checked, pushChan]

lemma spawnUnit_invariant {α : Type} (keep : α → Bool) (thrN : Nat)
    (hN : 1 ≤ thrN) (s : Pool α) (r : α)
    (hlen : s.chanPool.length < thrN) (hpeak : s.peak ≤ thrN) :
    (spawnUnit keep thrN s r).chanPool.length < thrN ∧
    (spawnUnit keep thrN s r).peak ≤ thrN := by
  have hpeak2 : (pushChan s r).peak ≤ thrN := max_le hpeak hlen
  have hplen : (pushChan s r).chanPool.length = s.chanPool.length + 1 := by
    simp [pushChan]
  unfold spawnUnit
  split
  case isTrue h =>
    constructor
    · rw [recvOldest_length keep _ (by simp [pushChan])]
      omega
    · rw [recvOldest_peak]
      exact hpeak2
  case isFalse h =>
    constructor
    · omega
    · exact hpeak2

lemma foldl_spawn_invariant {α : Type} (keep : α → Bool) (thrN : Nat)
    (hN : 1 ≤ thrN) :
    ∀ (l : List α) (s : Pool α), s.chanPool.length < thrN → s.peak ≤ thrN →
      (l.foldl (spawnUnit keep thrN) s).chanPool.length < thrN ∧
      (l.foldl (spawnUnit keep thrN) s).peak ≤ thrN := by
  intro l
  induction l with
  | nil => intro s h1 h2; exact ⟨h1, h2⟩
  | cons r rest ih =>
    intro s h1 h2
    obtain ⟨h1s, h2s⟩ := spawnUnit_invariant keep thrN hN s r h1 h2
    exact ih (spawnUnit keep thrN s r) h1s h2s

lemma foldl_spawn_checked {α : Type} (keep : α → Bool) (thrN : Nat) :
    ∀ (l : List α) (s : Pool α),
      (l.foldl (spawnUnit keep thrN) s).checked = s.checked + l.length := by
  intro l
  induction l with
  | nil => intro s; rfl
  | cons r rest ih =>
    intro s
    simp only [List.foldl_cons, ih, spawnUnit_checked, List.length_cons]
    omega

lemma drainPool_spec {α : Type} (keep : α → Bool) :
    ∀ (n : Nat) (s : Pool α), s.chanPool.length = n →
      (drainPool keep n s).chanPool = [] ∧
      (drainPool keep n s).peak = s.peak ∧
      (drainPool keep n s).checked = s.checked := by
  intro n
  induction n with
  | zero =>
    intro s h
    exact ⟨List.length_eq_zero.mp h, rfl, rfl⟩
  | succ n ih =>
    intro s h
    have hne : s.chanPool ≠ [] := by
      intro hc; rw [hc] at h; simp at h
    have hlen : (recvOldest keep s).chanPool.length = n := by
      rw [recvOldest_length keep s hne, h]
      omega
    obtain ⟨ha, hb, hc⟩ := ih (recvOldest keep s) hlen
    refine ⟨?_, ?_, ?_⟩ <;> simp only [drainPool]
    · exact ha
    · rw [hb, recvOldest_peak]
    · rw [hc, recvOldest_checked]

/-- Successes already collected together with the successes still waiting in
the in-flight window; invariant under receiving and draining. -/
def flushOk {α : Type} (keep : α → Bool) (s : Pool α) : List α :=
  s.okResults ++ s.chanPool.filter keep

lemma flushOk_recvOldest {α : Type} (keep : α → Bool) (s : Pool α) :
    flushOk keep (recvOldest keep s) = flushOk keep s := by
  cases h : s.chanPool with
  | nil => simp [recvOldest, h]
  | cons res rest =>
    by_cases hk : keep res <;>
      simp [recvOldest, h, flushOk, List.filter_cons, hk]

lemma flushOk_spawnUnit {α : Type} (keep : α → Bool) (thrN : Nat) (s : Pool α)
    (r : α) :
    flushOk keep (spawnUnit keep thrN s r) =
      flushOk keep s ++ (if keep r then [r] else []) := by
  unfold spawnUnit
  split
  · rw [flushOk_recvOldest]
    by_cases hk : keep r <;>
      simp [flushOk, pushChan, List.filter_append, List.filter_cons, hk]
  · by_cases hk : keep r <;>
      simp [flushOk, pushChan, List.filter_append, List.filter_cons, hk]

lemma flushOk_foldl {α : Type} (keep : α → Bool) (thrN : Nat) :
    ∀ (l : List α) (s : Pool α),
      flushOk keep (l.foldl (spawnUnit keep thrN) s) =
        flushOk keep s ++ l.filter keep := by
  intro l
  induction l with
  | nil => intro s; simp
  | cons r rest ih =>
    intro s
    simp only [List.foldl_cons, ih, flushOk_spawnUnit, List.filter_cons]
    by_cases hk : keep r <;> simp [hk]

lemma flushOk_drainPool {α : Type} (keep : α → Bool) :
    ∀ (n : Nat) (s : Pool α),
      flushOk keep (drainPool keep n s) = flushOk keep s := by
  intro n
  induction n with
  | zero => intro s; rfl
  | succ n ih =>
    intro s
    simp only [drainPool, ih, flushOk_recvOldest]

lemma runPool_spec {α : Type} (keep : α → Bool) (thrN : Nat) (hN : 1 ≤ thrN)
    (results : List α) :
    (runPool keep thrN results).peak ≤ thrN ∧
    (runPool keep thrN results).chanPool = [] ∧
    (runPool keep thrN results).checked = results.length ∧
    (runPool keep thrN results).okResults = results.filter keep := by
  unfold runPool
  have hinv := foldl_spawn_invariant keep thrN hN results ⟨[], [], 0, 0⟩
    (by simpa using hN) (by simp)
  have hdrain := drainPool_spec keep
    (results.foldl (spawnUnit keep thrN) ⟨[], [], 0, 0⟩).chanPool.length
    (results.foldl (spawnUnit keep thrN) ⟨[], [], 0, 0⟩) rfl
  refine ⟨?_, hdrain.1, ?_, ?_⟩
  · rw [hdrain.2.1]; exact hinv.2
  · rw [hdrain.2.2, foldl_spawn_checked]; simp
  · have hflush : flushOk keep (drainPool keep
        (results.foldl (spawnUnit keep thrN) ⟨[], [], 0, 0⟩).chanPool.length
        (results.foldl (spawnUnit keep thrN) ⟨[], [], 0, 0⟩)) =
        results.filter keep := by
      rw [flushOk_drainPool, flushOk_foldl]
      simp [flushOk]
    rw [← hflush]
    simp [flushOk, hdrain.1]

lemma runPool_okResults {α : Type} (keep : α → Bool) (thrN : Nat) :
    ∀ results : List α,
      (runPool keep thrN results).okResults = results.filter keep ∧
      (runPool keep thrN results).checked = results.length := by
  intro results
  unfold runPool
  have hdrain := drainPool_spec keep
    (results.foldl (spawnUnit keep thrN) ⟨[], [], 0, 0⟩).chanPool.length
    (results.foldl (spawnUnit keep thrN) ⟨[], [], 0, 0⟩) rfl
  constructor
  · have hflush : flushOk keep (drainPool keep
        (results.foldl (spawnUnit keep thrN) ⟨[], [], 0, 0⟩).chanPool.length
        (results.foldl (spawnUnit keep thrN) ⟨[], [], 0, 0⟩)) =
        results.filter keep := by
      rw [flushOk_drainPool, flushOk_foldl]
      simp [flushOk]
    rw [← hflush]
    simp [flushOk, hdrain.1]
  · rw [hdrain.2.2, foldl_spawn_checked]; simp

/- ### C1 -/

/-- C1: for every concurrency limit of at least one and every list of work
items, each worker pool — the repo-sync pool and the shard-scan pool — never
has more than the limit of units in flight at any instant (`peak` records
the maximum window size ever reached), and the pool returns with an empty
window after having dispatched and collected every item's result. -/
theorem pool_bounded_and_complete (thrN : Nat) (hN : 1 ≤ thrN)
    (repoResults : List String) (shardResults : List Bool) :
    ((processReposPool thrN repoResults).peak ≤ thrN ∧
      (processReposPool thrN repoResults).chanPool = [] ∧
      (processReposPool thrN repoResults).checked = repoResults.length) ∧
    ((processCommitsPool thrN shardResults).peak ≤ thrN ∧
      (processCommitsPool thrN shardResults).chanPool = [] ∧
      (processCommitsPool thrN shardResults).checked = shardResults.length) := by
  obtain ⟨h1, h2, h3, _⟩ := runPool_spec (fun res => res != "") thrN hN repoResults
  obtain ⟨g1, g2, g3, _⟩ := runPool_spec (fun _ => false) thrN hN shardResults
  exact ⟨⟨h1, h2, h3⟩, ⟨g1, g2, g3⟩⟩

/-- C1 witness at limit two, three repo items and two shard items. -/
theorem pool_bounded_and_complete_witness :
    1 ≤ 2 ∧
    (((processReposPool 2 ["org1/repoX", "", "org2/repoZ"]).peak ≤ 2 ∧
       (processReposPool 2 ["org1/repoX", "", "org2/repoZ"]).chanPool = [] ∧
       (processReposPool 2 ["org1/repoX", "", "org2/repoZ"]).checked =
         (["org1/repoX", "", "org2/repoZ"] : List String).length) ∧
     ((processCommitsPool 2 [true, false]).peak ≤ 2 ∧
       (processCommitsPool 2 [true, false]).chanPool = [] ∧
       (processCommitsPool 2 [true, false]).checked =
         ([true, false] : List Bool).length)) :=
  ⟨by decide,
   pool_bounded_and_complete 2 (by decide) ["org1/repoX", "", "org2/repoZ"]
     [true, false]⟩

/- ### C3 -/

/-- C3: a failing sync item (reporting the empty string) contributes no
entry to the success collection and aborts nothing — the pool's collected
successes are exactly the non-empty results and every item is counted as
attempted — and in the spec's three-repo scenario with one failed clone the
successful set is the other two repos with summary counts 2 over 3. -/
theorem repoPool_isolates_failures (thrN : Nat) (results : List String) :
    (processReposPool thrN results).okResults =
        results.filter (fun res => res != "") ∧
    (processReposPool thrN results).checked = results.length ∧
    (processReposPool 2 ["org1/repoX", "", "org2/repoZ"]).okResults =
        ["org1/repoX", "org2/repoZ"] ∧
    summaryLine (processReposPool 2 ["org1/repoX", "", "org2/repoZ"]).okResults.length
        (processReposPool 2 ["org1/repoX", "", "org2/repoZ"]).checked =
      "Sucesfully processed 2/3 repos\n" := by
  obtain ⟨h1, h2⟩ := runPool_okResults (fun res => res != "") thrN results
  exact ⟨h1, h2, by decide, by decide⟩

/- ### String-order lemmas for the aggregator -/

lemma leChars_total : ∀ as bs : List Char,
    leChars as bs = true ∨ leChars bs as = true := by
  intro as
  induction as with
  | nil => intro bs; left; rfl
  | cons a as ih =>
    intro bs
    cases bs with
    | nil => right; rfl
    | cons b bs =>
      by_cases h : a = b
      · subst h
        rcases ih bs with h2 | h2
        · left; simpa [leChars] using h2
        · right; simpa [leChars] using h2
      · rcases lt_trichotomy a b with h1 | h1 | h1
        · left; simp [leChars, h, h1]
        · exact absurd h1 h
        · right; simp [leChars, Ne.symm h, h1]

lemma leChars_trans : ∀ as bs cs : List Char,
    leChars as bs = true → leChars bs cs = true → leChars as cs = true := by
  intro as
  induction as with
  | nil => intro bs cs h1 h2; rfl
  | cons a as ih =>
    intro bs cs h1 h2
    cases bs with
    | nil => simp [leChars] at h1
    | cons b bs =>
      cases cs with
      | nil => simp [leChars] at h2
      | cons c cs =>
        by_cases hab : a = b <;> by_cases hbc : b = c
        · subst hab; subst hbc
          simp only [leChars, if_pos rfl] at h1 h2 ⊢
          exact ih bs cs h1 h2
        · subst hab
          simp only [leChars, if_pos rfl] at h1
          simp only [leChars, if_neg hbc] at h2 ⊢
          exact h2
        · subst hbc
          simp only [leChars, if_neg hab] at h1 ⊢
          exact h1
        · simp only [leChars, if_neg hab] at h1
          simp only [leChars, if_neg hbc] at h2
          have hac : a < c := lt_trans (of_decide_eq_true h1) (of_decide_eq_true h2)
          simp only [leChars, if_neg (ne_of_lt hac)]
          exact decide_eq_true hac

instance : IsTotal String goStrLe :=
  ⟨fun a b => leChars_total a.data b.data⟩

instance : IsTrans String goStrLe :=
  ⟨fun a b c => leChars_trans a.data b.data c.data⟩

/- ### C7 -/

/-- C7: the reporting tail sorts the successful outcomes and the
organization names lexicographically and prints the external-tool repository
listing and the glob-path shell command only when the external-reporting
flag is set, and only to standard output; the successes-over-attempted
summary is logged unconditionally and is the only log line. -/
theorem reportRepos_sorted_gated_output (externalInfo : Bool)
    (reposDir : String) (allOkRepos orgs : List String) (checked : Nat) :
    (reportRepos externalInfo reposDir allOkRepos orgs checked).logLines =
        [summaryLine allOkRepos.length checked] ∧
    (reportRepos false reposDir allOkRepos orgs checked).stdoutLines = [] ∧
    ∃ sortedOk sortedOrgs : List String,
      (reportRepos true reposDir allOkRepos orgs checked).stdoutLines =
          ["AllRepos:\n" ++ allOkReposStr sortedOk ++ "\n",
           "Final command:\n" ++ finalCmdStr reposDir sortedOrgs ++ "\n"] ∧
      sortedOk.Pairwise goStrLe ∧ sortedOk.Perm allOkRepos ∧
      sortedOrgs.Pairwise goStrLe ∧ sortedOrgs.Perm orgs := by
  refine ⟨rfl, rfl, goSortStrings allOkRepos, goSortStrings orgs, rfl,
    ?_, ?_, ?_, ?_⟩
  · exact List.sorted_insertionSort goStrLe allOkRepos
  · exact List.perm_insertionSort goStrLe allOkRepos
  · exact List.sorted_insertionSort goStrLe orgs
  · exact List.perm_insertionSort goStrLe orgs

/- ### Index-builder counting lemmas -/

lemma addRepo_count (m : String → List String) (org repo o r : String) :
    ((addRepo m org repo) o).count r =
      (m o).count r + (if o = org ∧ r = repo then 1 else 0) := by
  unfold addRepo
  by_cases ho : o = org
  · subst ho
    by_cases hr : r = repo
    · subst hr; simp [List.count_append]
    · simp [List.count_append, hr, List.count_singleton]
  · simp [ho]

lemma processDbRepos_count (repos : List String) :
    ∀ m : String → List String, (∀ r ∈ repos, (goSplit r '/').length = 2) →
      ∃ m2, processDbRepos repos m = .ok m2 ∧
        ∀ o r, (m2 o).count r =
          (m o).count r + (if orgOf r = o then repos.count r else 0) := by
  induction repos with
  | nil => intro m _; exact ⟨m, rfl, by simp⟩
  | cons repo rest ih =>
    intro m hwf
    have hlen : ¬ (goSplit repo '/').length ≠ 2 := by
      simpa using hwf repo (List.mem_cons_self repo rest)
    have hrest : ∀ r ∈ rest, (goSplit r '/').length = 2 :=
      fun r hr => hwf r (List.mem_cons_of_mem repo hr)
    obtain ⟨m2, hok, hcount⟩ := ih (addRepo m (orgOf repo) repo) hrest
    refine ⟨m2, ?_, ?_⟩
    · simp only [processDbRepos, if_neg hlen]
      exact hok
    · intro o r
      rw [hcount o r, addRepo_count]
      by_cases hro : r = repo
      · subst hro
        by_cases ho : orgOf r = o
        · simp [List.count_cons, ho]
          omega
        · have hne : ¬ o = orgOf r := fun hc => ho hc.symm
          simp [List.count_cons, ho, hne]
      · have hne2 : ¬ (o = orgOf repo ∧ r = repo) := fun hc => hro hc.2
        by_cases ho : orgOf r = o <;>
          simp [List.count_cons, ho, hne2, hro]

lemma buildAllRepos_count (dbRepos : String → List String) (dbs : List String) :
    ∀ m : String → List String,
      (∀ db ∈ dbs, ∀ r ∈ dbRepos db, (goSplit r '/').length = 2) →
      ∃ m2, buildAllRepos dbRepos dbs m = .ok m2 ∧
        ∀ o r, (m2 o).count r = (m o).count r +
          (if orgOf r = o
           then (dbs.map (fun db => (dbRepos db).count r)).sum else 0) := by
  induction dbs with
  | nil => intro m _; exact ⟨m, rfl, by simp⟩
  | cons db rest ih =>
    intro m hwf
    obtain ⟨m1, hok1, hc1⟩ := processDbRepos_count (dbRepos db) m
      (fun r hr => hwf db (List.mem_cons_self db rest) r hr)
    obtain ⟨m2, hok2, hc2⟩ := ih m1
      (fun d hd r hr => hwf d (List.mem_cons_of_mem db hd) r hr)
    refine ⟨m2, ?_, ?_⟩
    · simp only [buildAllRepos, hok1]
      exact hok2
    · intro o r
      rw [hc2 o r, hc1 o r]
      by_cases ho : orgOf r = o <;> simp [ho] <;> omega

lemma computeDbs_aux_nodup (projects : List Project) :
    ∀ acc : List String, acc.Nodup →
      (projects.foldl
        (fun dbs p =>
          if p.disabled then dbs
          else if dbs.contains p.pdb then dbs else dbs ++ [p.pdb]) acc).Nodup := by
  induction projects with
  | nil => intro acc h; exact h
  | cons p rest ih =>
    intro acc h
    simp only [List.foldl_cons]
    by_cases hd : p.disabled = true
    · simpa [hd] using ih acc h
    · by_cases hm : p.pdb ∈ acc
      · simpa [hd, hm] using ih acc h
      · have hnodup : (acc ++ [p.pdb]).Nodup := by
          simp [List.nodup_append, h, hm]
        simpa [hd, hm] using ih (acc ++ [p.pdb]) hnodup

lemma computeDbs_nodup (projects : List Project) : (computeDbs projects).Nodup :=
  computeDbs_aux_nodup projects [] List.nodup_nil

/- ### C8 -/

/-- C8: under well-formed identifiers, the index builder succeeds returning
the deduplicated shard set, and its organization mapping contains each
identifier exactly once per occurrence across all distinct shards —
duplicates across shards are appended, never merged — and identifiers never
appear under a different organization than their first split field. -/
theorem getRepos_preserves_occurrences (projects : List Project)
    (dbRepos : String → List String)
    (hwf : ∀ db ∈ computeDbs projects, ∀ r ∈ dbRepos db,
      (goSplit r '/').length = 2) :
    (computeDbs projects).Nodup ∧
    ∃ m, getRepos projects dbRepos = .ok (computeDbs projects, m) ∧
      ∀ o r, (m o).count r =
        if orgOf r = o
        then ((computeDbs projects).map (fun db => (dbRepos db).count r)).sum
        else 0 := by
  refine ⟨computeDbs_nodup projects, ?_⟩
  obtain ⟨m2, hok, hc⟩ :=
    buildAllRepos_count dbRepos (computeDbs projects) (fun _ => []) hwf
  refine ⟨m2, ?_, ?_⟩
  · simp only [getRepos, hok]
  · intro o r
    rw [hc o r]
    simp

/-- C8 witness: two enabled shards sharing one database name plus a third
distinct one; the shared identifier appears once per shard occurrence. -/
theorem getRepos_preserves_occurrences_witness :
    (∀ db ∈ computeDbs [Project.mk false "A", Project.mk true "C",
        Project.mk false "B", Project.mk false "A"],
      ∀ r ∈ (fun db => if db = "A" then ["org1/repoX", "org2/repoZ"]
          else ["org1/repoX"] : String → List String) db,
        (goSplit r '/').length = 2) ∧
    ((computeDbs [Project.mk false "A", Project.mk true "C",
        Project.mk false "B", Project.mk false "A"]).Nodup ∧
      ∃ m, getRepos [Project.mk false "A", Project.mk true "C",
          Project.mk false "B", Project.mk false "A"]
          (fun db => if db = "A" then ["org1/repoX", "org2/repoZ"]
            else ["org1/repoX"]) =
        .ok (computeDbs [Project.mk false "A", Project.mk true "C",
          Project.mk false "B", Project.mk false "A"], m) ∧
        ∀ o r, (m o).count r =
          if orgOf r = o
          then ((computeDbs [Project.mk false "A", Project.mk true "C",
              Project.mk false "B", Project.mk false "A"]).map
            (fun db => ((fun db => if db = "A" then ["org1/repoX", "org2/repoZ"]
              else ["org1/repoX"] : String → List String) db).count r)).sum
          else 0) :=
  ⟨by decide,
   getRepos_preserves_occurrences
     [Project.mk false "A", Project.mk true "C",
      Project.mk false "B", Project.mk false "A"]
     (fun db => if db = "A" then ["org1/repoX", "org2/repoZ"]
       else ["org1/repoX"]) (by decide)⟩
